import Mathlib

/-!
# The Panel view component of octant (`internal/view/component/panel.go`)

A shallow embedding of `PanelConfig`, `PanelPosition`, `Panel`, `NewPanel`,
`Panel.Position`, `Panel.GetMetadata`, `Panel.MarshalJSON` and
`PanelConfig.UnmarshalJSON`.

Conventions of the embedding:

* a byte slice handed to or returned by `encoding/json` is a `Bytes`: either
  text that is not well-formed JSON, or the JSON value it spells (`JSON`);
* a Go function returning `(v, error)` returns a pair whose second component is
  `none` for a nil error; a method with a pointer receiver returns the receiver
  as it is after the call together with its results;
* Go `int` is the 64-bit signed range (`GoInt`);
* `encoding/json` rejects text that nests arrays and objects deeper than
  `maxNestingDepth`, both when it decodes and when it takes over the bytes a
  `MarshalJSON` method returned;
* an interface value of type `ViewComponent` is `nil`, a Panel, or a value of
  one of the other variants, whose code is outside `panel.go`.
-/

namespace component

/-! ## Values of `encoding/json` -/

/-- A JSON value. A number literal that is an integer is `num`; a number literal
with a fraction or an exponent is `frac`, kept as written. Object members keep
the order and the duplicates of the text. -/
inductive JSON where
  | null
  | bool (b : Bool)
  | num (n : Int)
  | frac (lit : String)
  | str (s : String)
  | arr (elems : List JSON)
  | obj (members : List (String × JSON))

/-- A byte slice seen by `encoding/json` (also `json.RawMessage`): text that does
not parse, the empty slice included, or the value the text spells. -/
inductive Bytes where
  | invalid
  | valid (j : JSON)

/-- Go error values that occur in this development. -/
inductive Err where
  /-- The error `*json.SyntaxError`: the text is not well-formed JSON. -/
  | malformed
  /-- The error `*json.SyntaxError` with the message `exceeded max depth`: the
  text nests arrays and objects deeper than `encoding/json` accepts. -/
  | exceededMaxDepth
  /-- The error `*json.UnmarshalTypeError`: a JSON value of kind `value` cannot be stored
  in the Go field `field`. -/
  | unmarshalType (value : String) (field : String)
  /-- The error `*json.MarshalerError`: a `MarshalJSON` called by `json.Marshal` failed. -/
  | marshaler (cause : Err)
  /-- The typed object carries no discriminator. -/
  | missingTypeTag
  /-- The discriminator is not one of the known variants. -/
  | unknownVariant (tag : String)
  /-- A field of the payload of variant `tag` has the wrong type or shape. -/
  | invalidPayload (tag : String) (field : String)
  /-- An error raised by the code of another variant. -/
  | variant (msg : String)
  deriving DecidableEq, Repr

/-- The range of Go `int` on a 64-bit platform. -/
def inInt64 (n : Int) : Prop :=
  -9223372036854775808 ≤ n ∧ n ≤ 9223372036854775807

instance (n : Int) : Decidable (inInt64 n) := by
  unfold inInt64; infer_instance

/-- Go `int`. -/
abbrev GoInt := { n : Int // inInt64 n }

/-- The zero value of `int`. -/
def GoInt.zero : GoInt := ⟨0, by decide⟩

/-- The member of an object found first under the exact key `k`. -/
def JSON.get (k : String) : JSON → Option JSON
  | .obj ms => (ms.find? (fun m => m.1 == k)).map (fun m => m.2)
  | _ => none

/-- The kind of a JSON value, as `json.UnmarshalTypeError.Value` names it. -/
def JSON.kind : JSON → String
  | .null => "null"
  | .bool _ => "bool"
  | .num _ => "number"
  | .frac _ => "number"
  | .str _ => "string"
  | .arr _ => "array"
  | .obj _ => "object"

mutual
/-- The nesting depth of a JSON value, as the scanner of `encoding/json` counts
it: the largest number of arrays and objects open at once. -/
def JSON.depth : JSON → Nat
  | .arr elems => depthElems elems + 1
  | .obj members => depthMembers members + 1
  | _ => 0
/-- The largest nesting depth among the elements of an array. -/
def depthElems : List JSON → Nat
  | [] => 0
  | x :: xs => max x.depth (depthElems xs)
/-- The largest nesting depth among the member values of an object. -/
def depthMembers : List (String × JSON) → Nat
  | [] => 0
  | m :: ms => max m.2.depth (depthMembers ms)
end

/-- The constant `maxNestingDepth` of `encoding/json`: its scanner rejects a
text, with the error `exceeded max depth`, as soon as more than this many
arrays and objects are open at once. -/
def maxNestingDepth : Nat := 10000

/-- Simple case folding of one rune, as far as it can meet an ASCII letter: the
upper-case ASCII letters, the long s (U+017F) and the Kelvin sign (U+212A). -/
def foldRune (c : Char) : Char :=
  if c = Char.ofNat 0x017F then 's'
  else if c = Char.ofNat 0x212A then 'k'
  else c.toLower

/-- The folded spelling of an object key or field name. -/
def foldName (s : String) : List Char := s.data.map foldRune

/-- Whether object key `key` selects the struct field named `field`
(`encoding/json` matches field names without regard to case). The field names
of this file are ASCII and differ pairwise after folding, so the preference of
the decoder for an exact match selects the same field. -/
def equalFold (key field : String) : Bool := foldName key == foldName field

/-- Decoding a JSON value into a field of type `int`: `null` leaves the field
as it is, an integer literal in range is stored, anything else is a type
error. -/
def decodeInt (field : String) (cur : GoInt) : JSON → Except Err GoInt
  | .null => .ok cur
  | .num n => if h : inInt64 n then .ok ⟨n, h⟩ else .error (.unmarshalType "number" field)
  | j => .error (.unmarshalType j.kind field)

/-- Decoding a JSON value into a field of type `string`. -/
def decodeString (field : String) (cur : String) : JSON → Except Err String
  | .null => .ok cur
  | .str s => .ok s
  | j => .error (.unmarshalType j.kind field)

/-- Decoding a JSON value into a struct: `null` leaves the struct as it is, an
object stores its members one after the other (`step` decodes one member into
the field its key selects, and ignores a key that selects none), anything else
is a type error. The first type error is the one reported. -/
def decodeStruct {T : Type} (field : String) (step : T → String × JSON → Except Err T)
    (cur : T) : JSON → Except Err T
  | .null => .ok cur
  | .obj ms => ms.foldlM step cur
  | j => .error (.unmarshalType j.kind field)

/-! ## The envelope and the typed object

`panel.go` uses `Metadata`, `base`, `newBase`, `typePanel`, `TitleFromString`
and `typedObject`, whose declarations are in other files of the package. -/

/-- Modelled from the spec: the envelope fields every variant carries (spec 3
and 6), whose declaration `Metadata` is not in `panel.go`: the discriminator
`type` and the optional display label `title`. -/
structure Metadata where
  Type_ : String
  Title : Option String
  deriving DecidableEq, Repr

/-- Modelled from the spec: the struct `base` embedded in every variant, which
holds the envelope under the wire name `metadata` (spec 6). -/
structure base where
  Metadata : Metadata
  deriving DecidableEq, Repr

/-- Modelled from the spec: the discriminator of the Panel variant, `"Panel"`
(spec 4.3). -/
def typePanel : String := "Panel"

/-- Modelled from the spec: `TitleFromString`, the display label made of a
string (spec 3: the title is an optional label). -/
def TitleFromString (title : String) : Option String := some title

/-- Modelled from the spec: `newBase`, which builds the envelope of a new
component from its discriminator and its title (spec 4.1). -/
def newBase (t : String) (title : Option String) : base :=
  { Metadata := { Type_ := t, Title := title } }

/-- Modelled from the spec: the generic typed object of the decode procedure
(spec 4.4 and 6), a document split into its envelope and its still-encoded
payload `config`. -/
structure typedObject where
  Config : Bytes
  Metadata : Metadata

/-- The zero value of `Metadata`. -/
def Metadata.zero : Metadata := { Type_ := "", Title := none }

/-- The zero value of `typedObject`. -/
def typedObject.zero : typedObject := { Config := .invalid, Metadata := Metadata.zero }

/-- Modelled from the spec: the wire form of the envelope (spec 6): member
`type`, and member `title` unless the title is absent. -/
def Metadata.marshal (m : Metadata) : JSON :=
  .obj (("type", .str m.Type_) ::
    (match m.Title with
     | none => []
     | some s => [("title", .str s)]))

/-- Decoding a JSON value into the optional title: `null` clears it. -/
def decodeTitle (field : String) : JSON → Except Err (Option String)
  | .null => .ok none
  | .str s => .ok (some s)
  | j => .error (.unmarshalType j.kind field)

/-- Modelled from the spec: decoding one member of the `metadata` object. -/
def Metadata.step (m : Metadata) (kv : String × JSON) : Except Err Metadata :=
  if equalFold kv.1 "type" then
    (decodeString "type" m.Type_ kv.2).map (fun s => { m with Type_ := s })
  else if equalFold kv.1 "title" then
    (decodeTitle "title" kv.2).map (fun s => { m with Title := s })
  else .ok m

/-- Modelled from the spec: decoding one member of a typed object: `config` is
kept as raw text, `metadata` is decoded into the envelope. -/
def typedObject.step (o : typedObject) (kv : String × JSON) : Except Err typedObject :=
  if equalFold kv.1 "config" then
    .ok { o with Config := .valid kv.2 }
  else if equalFold kv.1 "metadata" then
    (decodeStruct "metadata" Metadata.step o.Metadata kv.2).map
      (fun m => { o with Metadata := m })
  else .ok o

/-! ## `panel.go` -/

/-- The struct `PanelPosition`: the relative location and size of a panel
within a grid. -/
structure PanelPosition where
  X : GoInt
  Y : GoInt
  W : GoInt
  H : GoInt
  deriving DecidableEq, Repr

/-- The zero value of `PanelPosition`. -/
def PanelPosition.zero : PanelPosition :=
  { X := GoInt.zero, Y := GoInt.zero, W := GoInt.zero, H := GoInt.zero }

/-- A value of interface type `ViewComponent`: nil, a value of a variant other
than Panel (`L` is the type of those values), or a Panel, given by its
embedded `base` and the two fields of its `Config`. -/
inductive ViewComponent (L : Type) where
  | nil
  | other (l : L)
  | panel (b : base) (Content : ViewComponent L) (Position : PanelPosition)
  deriving DecidableEq, Repr

/-- The struct `PanelConfig`: the contents of a Panel. -/
structure PanelConfig (L : Type) where
  Content : ViewComponent L
  Position : PanelPosition
  deriving DecidableEq, Repr

/-- The struct `Panel`: it embeds `base` and holds a `PanelConfig`. -/
structure Panel (L : Type) extends base where
  Config : PanelConfig L
  deriving DecidableEq, Repr

/-- A Panel as a value of interface type `ViewComponent`. -/
def Panel.asViewComponent {L : Type} (t : Panel L) : ViewComponent L :=
  .panel t.tobase t.Config.Content t.Config.Position

/-- The zero value of `PanelConfig`. -/
def PanelConfig.zero {L : Type} : PanelConfig L :=
  { Content := .nil, Position := PanelPosition.zero }

/-- Modelled from the spec: the variants other than Panel, whose code is not in
`panel.go`: how a value of one of them encodes itself, and the registry, which
resolves a discriminator to the procedure that rebuilds the value from the
typed object (spec 4.2). -/
structure Variants (L : Type) where
  MarshalJSON : L → Except Err JSON
  resolve : String → Option (typedObject → Except Err L)

/-- The constructor `NewPanel` creates a panel component. -/
def NewPanel {L : Type} (title : String) (content : ViewComponent L) : Panel L :=
  { tobase := newBase typePanel (TitleFromString title),
    Config := { Content := content, Position := PanelPosition.zero } }

/-- The method `Panel.Position` sets the position for the panel in a grid: four
assignments, one to each field of `t.Config.Position`. The result is the
receiver after the call. -/
def Panel.Position {L : Type} (t : Panel L) (x y w h : GoInt) : Panel L :=
  let t := { t with Config := { t.Config with Position := { t.Config.Position with X := x } } }
  let t := { t with Config := { t.Config with Position := { t.Config.Position with Y := y } } }
  let t := { t with Config := { t.Config with Position := { t.Config.Position with W := w } } }
  let t := { t with Config := { t.Config with Position := { t.Config.Position with H := h } } }
  t

/-- The method `Panel.GetMetadata` accesses the metadata of the component. -/
def Panel.GetMetadata {L : Type} (t : Panel L) : Metadata :=
  t.Metadata

/-- The result of `json.Marshal` on a `PanelPosition`: the four fields under their tags. -/
def PanelPosition.marshal (p : PanelPosition) : JSON :=
  .obj [("x", .num p.X.val), ("y", .num p.Y.val), ("w", .num p.W.val), ("h", .num p.H.val)]

/-- The result of `json.Marshal` on a struct of type `panelMarshal` (the fields of `Panel`
without its methods), given what encoding the field `Content` produced: the
promoted field `Metadata` under `metadata`, then `Config` under `config` with
its fields `content` and `position`. An error of the `MarshalJSON` of the
content is wrapped by `json.Marshal`; so is the error of the scanner, through
which `json.Marshal` passes the bytes that `MarshalJSON` returned, when they
nest deeper than `maxNestingDepth`. -/
def marshalStruct (md : Metadata) (content : Except Err JSON) (pos : PanelPosition) :
    Except Err JSON :=
  match content with
  | .error e => .error (.marshaler e)
  | .ok c =>
    if maxNestingDepth < c.depth then .error (.marshaler .exceededMaxDepth)
    else
      .ok (.obj [("metadata", md.marshal),
                 ("config", .obj [("content", c), ("position", pos.marshal)])])

/-- What `json.Marshal` obtains for a field of interface type `ViewComponent`:
`null` for nil, otherwise the result of the `MarshalJSON` method of the value.
For a Panel that method is `Panel.MarshalJSON` below: it encodes the struct
with the discriminator overwritten. -/
def ViewComponent.marshal {L : Type} (V : Variants L) : ViewComponent L → Except Err JSON
  | .nil => .ok .null
  | .other l => V.MarshalJSON l
  | .panel b c pos =>
    marshalStruct { b.Metadata with Type_ := typePanel } (ViewComponent.marshal V c) pos

/-- The method `Panel.MarshalJSON` implements `json.Marshaler`: it copies the receiver,
overwrites the discriminator of the copy, and encodes the copy. The result is
the receiver after the call and the encoding. -/
def Panel.MarshalJSON {L : Type} (V : Variants L) (t : Panel L) : Panel L × Except Err JSON :=
  let m : Panel L := t
  let m : Panel L := { m with Metadata := { m.Metadata with Type_ := typePanel } }
  (t, marshalStruct m.Metadata (m.Config.Content.marshal V) m.Config.Position)

/-- The local struct `x` of `PanelConfig.UnmarshalJSON`. -/
structure UnmarshalTarget where
  Position : PanelPosition
  Content : typedObject

/-- Decoding one member of the `position` object into a `PanelPosition`. -/
def PanelPosition.step (p : PanelPosition) (kv : String × JSON) : Except Err PanelPosition :=
  if equalFold kv.1 "x" then (decodeInt "x" p.X kv.2).map (fun n => { p with X := n })
  else if equalFold kv.1 "y" then (decodeInt "y" p.Y kv.2).map (fun n => { p with Y := n })
  else if equalFold kv.1 "w" then (decodeInt "w" p.W kv.2).map (fun n => { p with W := n })
  else if equalFold kv.1 "h" then (decodeInt "h" p.H kv.2).map (fun n => { p with H := n })
  else .ok p

/-- Decoding one member of the document into the local struct `x`, whose
fields `Position` and `Content` have no tag. -/
def UnmarshalTarget.step (x : UnmarshalTarget) (kv : String × JSON) :
    Except Err UnmarshalTarget :=
  if equalFold kv.1 "Position" then
    (decodeStruct "Position" PanelPosition.step x.Position kv.2).map
      (fun p => { x with Position := p })
  else if equalFold kv.1 "Content" then
    (decodeStruct "Content" typedObject.step x.Content kv.2).map
      (fun c => { x with Content := c })
  else .ok x

/-- The call `json.Unmarshal(data, &x)` of `PanelConfig.UnmarshalJSON`, on the
zero value of `x`: the base parse of the document. The text is checked first,
and rejected when it is not well-formed or nests deeper than
`maxNestingDepth`; then it is decoded into `x`. -/
def baseParse : Bytes → Except Err UnmarshalTarget
  | .invalid => .error .malformed
  | .valid j =>
    if maxNestingDepth < j.depth then .error .exceededMaxDepth
    else
      decodeStruct "" UnmarshalTarget.step
        { Position := PanelPosition.zero, Content := typedObject.zero } j

/-- The method `PanelConfig.UnmarshalJSON`. The method `typedObject.ToViewComponent` is
not in `panel.go` and is the parameter `toViewComponent`. The result is the
receiver after the call and the error returned. -/
def PanelConfig.UnmarshalJSON {L : Type}
    (toViewComponent : typedObject → ViewComponent L × Option Err)
    (t : PanelConfig L) (data : Bytes) : PanelConfig L × Option Err :=
  match baseParse data with
  | .error err => (t, some err)
  | .ok x =>
    let t := { t with Position := x.Position }
    let r := toViewComponent x.Content
    let t := { t with Content := r.1 }
    match r.2 with
    | some err => (t, some err)
    | none => (t, none)

/-- Decoding a JSON value into a `typedObject`, from its zero value, as the
base parse does for the member `content`. -/
def typedObject.parse (j : JSON) : Except Err typedObject :=
  decodeStruct "Content" typedObject.step typedObject.zero j

/-- The call `json.Unmarshal(data, &o)` on a whole document, for `o` a zero
`typedObject`: the same check of the text, then the decoding. -/
def typedObject.unmarshal : Bytes → Except Err typedObject
  | .invalid => .error .malformed
  | .valid j =>
    if maxNestingDepth < j.depth then .error .exceededMaxDepth
    else typedObject.parse j

/-- Modelled from the spec: how an error of the payload of a Panel surfaces
(spec 7): a field of the wrong type or shape is an `InvalidPayload` of the
Panel variant, any other failure propagates as it is. -/
def surfaced : Err → Err
  | .unmarshalType _ field => .invalidPayload typePanel field
  | e => e

/-- Modelled from the spec: the generic decode of a typed object (spec 4.4),
`typedObject.ToViewComponent`, which is not in `panel.go`. A missing
discriminator fails with `MissingTypeTag`; a Panel is rebuilt from the
envelope and from its `config`, decoded by `PanelConfig.UnmarshalJSON`, which
re-enters this procedure for the content; any other discriminator is resolved
by the registry. `fuel` bounds the number of nested re-entries. -/
def ToViewComponent {L : Type} (V : Variants L) :
    Nat → typedObject → ViewComponent L × Option Err
  | 0, _ => (.nil, some (.variant "nesting exceeds the fuel"))
  | fuel + 1, o =>
    if o.Metadata.Type_ = "" then (.nil, some .missingTypeTag)
    else if o.Metadata.Type_ = typePanel then
      let r := PanelConfig.UnmarshalJSON (ToViewComponent V fuel) PanelConfig.zero o.Config
      match r.2 with
      | some err => (.nil, some (surfaced err))
      | none => (.panel { Metadata := o.Metadata } r.1.Content r.1.Position, none)
    else
      match V.resolve o.Metadata.Type_ with
      | none => (.nil, some (.unknownVariant o.Metadata.Type_))
      | some decode =>
        match decode o with
        | .error err => (.nil, some err)
        | .ok l => (.other l, none)

/-- Modelled from the spec: a representative variant other than Panel, used to
evaluate the definitions on concrete inputs: a text leaf with discriminator
`"text"` whose payload is the member `value` of its `config`. -/
def textVariants : Variants String where
  MarshalJSON s :=
    .ok (.obj [("metadata", .obj [("type", .str "text")]),
               ("config", .obj [("value", .str s)])])
  resolve tag :=
    if tag = "text" then
      some (fun o =>
        match o.Config with
        | .invalid => .error .malformed
        | .valid j =>
          match j.get "value" with
          | some (.str s) => .ok s
          | _ => .error (.invalidPayload "text" "value"))
    else none

/-- The base of a Panel with the discriminator of the Panel variant, as
`Panel.MarshalJSON` writes it. -/
def retag (b : base) : base :=
  { Metadata := { b.Metadata with Type_ := typePanel } }

/-- A chain of Panels, outermost first, each given by its `base` and its
position, each holding the next as its content, the innermost holding
`inner`. -/
def nest {L : Type} (inner : ViewComponent L) : List (base × PanelPosition) → ViewComponent L
  | [] => inner
  | bp :: rest => .panel bp.1 (nest inner rest) bp.2

/-- The Panel at the head of a chain. -/
def chainHead {L : Type} (inner : ViewComponent L) (bp : base × PanelPosition)
    (rest : List (base × PanelPosition)) : Panel L :=
  { tobase := bp.1, Config := { Content := nest inner rest, Position := bp.2 } }

/-- A value `l` of another variant round-trips through the document `enc` and
the typed object `o`: it encodes to `enc`, which parses as `o`, from which the
decode procedure rebuilds `l`. -/
def RoundTrips {L : Type} (V : Variants L) (l : L) (enc : JSON) (o : typedObject) : Prop :=
  V.MarshalJSON l = .ok enc ∧ typedObject.parse enc = .ok o ∧
    ToViewComponent V 1 o = (.other l, none)

/-- The `config` member of an encoded Panel, given the encoding of its
content. -/
def configDoc (content : JSON) (pos : PanelPosition) : JSON :=
  .obj [("content", content), ("position", pos.marshal)]

/-- The document a Panel encodes to, given its base and the encoding of its
content. -/
def panelDoc (b : base) (content : JSON) (pos : PanelPosition) : JSON :=
  .obj [("metadata", (retag b).Metadata.marshal), ("config", configDoc content pos)]

/-- The document a chain of Panels encodes to, over an innermost content that
encodes to `enc`. -/
def chainDoc (enc : JSON) : List (base × PanelPosition) → JSON
  | [] => enc
  | bp :: rest => panelDoc bp.1 (chainDoc enc rest) bp.2

/-- The typed object the document of a chain parses to, over an innermost
content whose document parses to `o`. -/
def chainObject (enc : JSON) (o : typedObject) : List (base × PanelPosition) → typedObject
  | [] => o
  | bp :: rest =>
    { Config := .valid (configDoc (chainDoc enc rest) bp.2), Metadata := (retag bp.1).Metadata }

/-! ## Concrete inputs -/

/-- A text leaf with the value `hello`. -/
def sampleLeaf : ViewComponent String := .other "hello"

/-- The document the text leaf encodes to. -/
def sampleLeafDoc : JSON :=
  .obj [("metadata", .obj [("type", .str "text")]), ("config", .obj [("value", .str "hello")])]

/-- The typed object the encoded text leaf parses to. -/
def sampleLeafObject : typedObject :=
  { Config := .valid (.obj [("value", .str "hello")]),
    Metadata := { Type_ := "text", Title := none } }

/-- The position `{0, 0, 12, 4}`. -/
def samplePosition : PanelPosition :=
  { X := ⟨0, by decide⟩, Y := ⟨0, by decide⟩, W := ⟨12, by decide⟩, H := ⟨4, by decide⟩ }

/-- The Panel of `NewPanel("Overview", leaf)` followed by `Position(0, 0, 12, 4)`. -/
def samplePanel : Panel String :=
  (NewPanel "Overview" sampleLeaf).Position ⟨0, by decide⟩ ⟨0, by decide⟩ ⟨12, by decide⟩
    ⟨4, by decide⟩

/-- The document `samplePanel` encodes to. -/
def samplePanelDoc : JSON :=
  .obj [("metadata", .obj [("type", .str "Panel"), ("title", .str "Overview")]),
        ("config", .obj [("content", sampleLeafDoc),
                         ("position", .obj [("x", .num 0), ("y", .num 0), ("w", .num 12),
                                            ("h", .num 4)])])]

/-- A `config` whose position is `{9, 9, 9, 9}` and whose content carries the
unknown discriminator `Bogus`. -/
def bogusConfig : Bytes :=
  .valid (.obj
    [("content", .obj [("metadata", .obj [("type", .str "Bogus")]), ("config", .obj [])]),
     ("position", .obj [("x", .num 9), ("y", .num 9), ("w", .num 9), ("h", .num 9)])])

/-- A `config` with a content and no member `position`. -/
def contentOnlyConfig : Bytes :=
  .valid (.obj [("content", sampleLeafDoc)])

/-- A Panel that stores the discriminator of another variant. -/
def mistaggedPanel : Panel String :=
  { Metadata := { Type_ := "text", Title := none },
    Config := { Content := .nil, Position := samplePosition } }

/-- A Panel of a chain after a round trip: its base carries the Panel
discriminator, its position is as it was. -/
def retagged (bp : base × PanelPosition) : base × PanelPosition :=
  (retag bp.1, bp.2)

/-- The base `NewPanel` gives a Panel titled `title`. -/
def sampleBase (title : String) : base := newBase typePanel (TitleFromString title)

/-- Two inner Panels of a chain of three, with different positions. -/
def sampleRest : List (base × PanelPosition) :=
  [(sampleBase "middle", { samplePosition with X := ⟨-1, by decide⟩ }),
   (sampleBase "inner", { samplePosition with H := ⟨7, by decide⟩ })]

/-- A Panel whose content is `samplePanel`. -/
def sampleOuter : Panel String :=
  (NewPanel "Outer" samplePanel.asViewComponent).Position ⟨1, by decide⟩ ⟨2, by decide⟩
    ⟨3, by decide⟩ ⟨-4, by decide⟩

/-- The document `sampleOuter` encodes to. -/
def sampleOuterDoc : JSON :=
  .obj [("metadata", .obj [("type", .str "Panel"), ("title", .str "Outer")]),
        ("config", .obj [("content", samplePanelDoc),
                         ("position", .obj [("x", .num 1), ("y", .num 2), ("w", .num 3),
                                            ("h", .num (-4))])])]

/-- A chain of `n` Panels, all with the base `NewPanel` gives and the position
`{0, 0, 12, 4}`. -/
def sampleChain (n : Nat) : List (base × PanelPosition) :=
  List.replicate n (sampleBase "level", samplePosition)

/-- A content that is a chain of 4999 Panels over the text leaf: its document
is nested exactly `maxNestingDepth` deep. -/
def deepContent : ViewComponent String := nest sampleLeaf (sampleChain 4999)

/-- The Panel of `NewPanel("Overview", deepContent)` followed by
`Position(0, 0, 12, 4)`. -/
def deepPanel : Panel String :=
  (NewPanel "Overview" deepContent).Position ⟨0, by decide⟩ ⟨0, by decide⟩ ⟨12, by decide⟩
    ⟨4, by decide⟩

/-! ## Properties -/

/-- C7. `Panel.Position` replaces the position of the panel by `{x, y, w, h}`,
whatever the four integers are, and changes nothing else: the metadata (the
discriminator and the title in it) and the content are those of the receiver
before the call. -/
theorem Position_sets_only_position {L : Type} (t : Panel L) (x y w h : GoInt) :
    t.Position x y w h
        = { t with Config := { t.Config with Position := { X := x, Y := y, W := w, H := h } } }
      ∧ (t.Position x y w h).Metadata = t.Metadata
      ∧ (t.Position x y w h).Metadata.Type_ = t.Metadata.Type_
      ∧ (t.Position x y w h).Metadata.Title = t.Metadata.Title
      ∧ (t.Position x y w h).Config.Content = t.Config.Content
      ∧ (t.Position x y w h).Config.Position = { X := x, Y := y, W := w, H := h } :=
  ⟨rfl, rfl, rfl, rfl, rfl, rfl⟩

/-- C8. `NewPanel title content` has the Panel discriminator whatever the
arguments are, the title `TitleFromString title`, the content `content` and
the position `{0, 0, 0, 0}`; `GetMetadata` returns the metadata of the panel
unchanged. -/
theorem NewPanel_postcondition {L : Type} (title : String) (content : ViewComponent L) :
    (NewPanel title content).GetMetadata.Type_ = typePanel
      ∧ (NewPanel title content).GetMetadata.Title = TitleFromString title
      ∧ (NewPanel title content).Config.Content = content
      ∧ (NewPanel title content).Config.Position = PanelPosition.zero
      ∧ (PanelPosition.zero.X.val = 0 ∧ PanelPosition.zero.Y.val = 0
          ∧ PanelPosition.zero.W.val = 0 ∧ PanelPosition.zero.H.val = 0)
      ∧ (∀ t : Panel L, t.GetMetadata = t.Metadata) :=
  ⟨rfl, rfl, rfl, rfl, ⟨rfl, rfl, rfl, rfl⟩, fun _ => rfl⟩

/-- C9. `Panel.MarshalJSON` leaves its receiver as it was, also when the
stored discriminator is not the Panel discriminator, and encoding the same
panel again returns the same document. -/
theorem MarshalJSON_pure {L : Type} (V : Variants L) (p : Panel L) :
    (p.MarshalJSON V).1 = p
      ∧ (p.MarshalJSON V).1.Metadata.Type_ = p.Metadata.Type_
      ∧ ((p.MarshalJSON V).1.MarshalJSON V).2 = (p.MarshalJSON V).2 :=
  ⟨rfl, rfl, rfl⟩

/-- The struct encodes when the bytes of the content are within the nesting
limit. -/
theorem marshalStruct_ok (md : Metadata) (c : JSON) (pos : PanelPosition)
    (hd : c.depth ≤ maxNestingDepth) :
    marshalStruct md (.ok c) pos
      = .ok (.obj [("metadata", md.marshal),
                   ("config", .obj [("content", c), ("position", pos.marshal)])]) := by
  simp only [marshalStruct, Nat.not_lt.mpr hd, if_false]

/-- The struct does not encode when the bytes of the content exceed the
nesting limit. -/
theorem marshalStruct_deep (md : Metadata) (c : JSON) (pos : PanelPosition)
    (hd : maxNestingDepth < c.depth) :
    marshalStruct md (.ok c) pos = .error (.marshaler .exceededMaxDepth) := by
  simp only [marshalStruct, hd, if_true]

/-- The document `Panel.MarshalJSON` returns, when it returns one. -/
theorem MarshalJSON_ok {L : Type} (V : Variants L) (p : Panel L) (doc : JSON)
    (h : (p.MarshalJSON V).2 = .ok doc) :
    ∃ c, p.Config.Content.marshal V = .ok c ∧ c.depth ≤ maxNestingDepth ∧
      doc = .obj [("metadata", Metadata.marshal { p.Metadata with Type_ := typePanel }),
                  ("config", .obj [("content", c), ("position", p.Config.Position.marshal)])] := by
  simp only [Panel.MarshalJSON] at h
  cases hc : p.Config.Content.marshal V with
  | error e => rw [hc] at h; cases h
  | ok c =>
    rw [hc] at h
    by_cases hd : maxNestingDepth < c.depth
    · rw [marshalStruct_deep _ c _ hd] at h
      cases h
    · rw [marshalStruct_ok _ c _ (Nat.not_lt.mp hd)] at h
      injection h with h
      exact ⟨c, rfl, Nat.not_lt.mp hd, h.symm⟩

/-- The method `Panel.MarshalJSON` succeeds as soon as the content encodes
within the nesting limit. -/
theorem MarshalJSON_of_content {L : Type} (V : Variants L) (p : Panel L) (c : JSON)
    (h : p.Config.Content.marshal V = .ok c) (hd : c.depth ≤ maxNestingDepth) :
    (p.MarshalJSON V).2
      = .ok (.obj [("metadata", Metadata.marshal { p.Metadata with Type_ := typePanel }),
                   ("config", .obj [("content", c), ("position", p.Config.Position.marshal)])]) := by
  simp only [Panel.MarshalJSON, h]
  exact marshalStruct_ok _ c _ hd

/-- C2. Whatever string the receiver stores as its discriminator, the document
returned by `Panel.MarshalJSON` has `metadata.type` equal to the Panel
discriminator, and the document does not depend on the stored string. -/
theorem MarshalJSON_tag {L : Type} (V : Variants L) (p : Panel L) (doc : JSON)
    (h : (p.MarshalJSON V).2 = .ok doc) :
    (doc.get "metadata").bind (JSON.get "type") = some (.str typePanel)
      ∧ ∀ s : String,
          (Panel.MarshalJSON V { p with Metadata := { p.Metadata with Type_ := s } }).2
            = .ok doc := by
  obtain ⟨c, hc, hd, rfl⟩ := MarshalJSON_ok V p doc h
  refine ⟨rfl, fun s => ?_⟩
  exact MarshalJSON_of_content V _ c hc hd

/-! ### The base parse -/

/-- Decoding an object into a struct stores its members from left to right. -/
theorem decodeStruct_obj {T : Type} (field : String) (step : T → String × JSON → Except Err T)
    (cur : T) (ms : List (String × JSON)) :
    decodeStruct field step cur (.obj ms) = ms.foldlM step cur := rfl

/-- An integer field reads back the literal that encodes it. -/
theorem decodeInt_val (field : String) (cur n : GoInt) :
    decodeInt field cur (.num n.val) = .ok n := by
  simp [decodeInt, n.property]

/-- The encoding of a `PanelPosition` decodes to it, whatever the field held. -/
theorem position_parse_marshal (field : String) (cur p : PanelPosition) :
    decodeStruct field PanelPosition.step cur p.marshal = .ok p := by
  have e1 : equalFold "x" "x" = true := by decide
  have e2 : equalFold "y" "x" = false := by decide
  have e3 : equalFold "y" "y" = true := by decide
  have e4 : equalFold "w" "x" = false := by decide
  have e5 : equalFold "w" "y" = false := by decide
  have e6 : equalFold "w" "w" = true := by decide
  have e7 : equalFold "h" "x" = false := by decide
  have e8 : equalFold "h" "y" = false := by decide
  have e9 : equalFold "h" "w" = false := by decide
  have e10 : equalFold "h" "h" = true := by decide
  simp [decodeStruct, PanelPosition.marshal, List.foldlM, PanelPosition.step, decodeInt_val,
    e1, e2, e3, e4, e5, e6, e7, e8, e9, e10, Except.map, bind, Except.bind]
  rfl

/-- The encoding of an envelope decodes to it, from the zero value. -/
theorem metadata_parse_marshal (field : String) (md : Metadata) :
    decodeStruct field Metadata.step Metadata.zero md.marshal = .ok md := by
  have e1 : equalFold "type" "type" = true := by decide
  have e2 : equalFold "title" "type" = false := by decide
  have e3 : equalFold "title" "title" = true := by decide
  obtain ⟨ty, title⟩ := md
  cases title <;>
    simp [decodeStruct, Metadata.marshal, List.foldlM, Metadata.step, decodeString, decodeTitle,
      Metadata.zero, e1, e2, e3, Except.map, bind, Except.bind] <;> rfl

/-- The encoding of a `PanelPosition` is one object deep. -/
theorem depth_position (p : PanelPosition) : p.marshal.depth = 1 := by
  simp [PanelPosition.marshal, JSON.depth, depthMembers]

/-- The encoding of an envelope is one object deep. -/
theorem depth_metadata (md : Metadata) : md.marshal.depth = 1 := by
  obtain ⟨ty, title⟩ := md
  cases title <;> simp [Metadata.marshal, JSON.depth, depthMembers]

/-- The `config` of an encoded Panel is one level deeper than its content. -/
theorem depth_configDoc (c : JSON) (pos : PanelPosition) :
    (configDoc c pos).depth = max c.depth 1 + 1 := by
  show max c.depth (max pos.marshal.depth 0) + 1 = max c.depth 1 + 1
  rw [depth_position]
  rfl

/-- An encoded Panel is two levels deeper than its content. -/
theorem depth_panelDoc (b : base) (c : JSON) (pos : PanelPosition) :
    (panelDoc b c pos).depth = max c.depth 1 + 2 := by
  show max (retag b).Metadata.marshal.depth (max (configDoc c pos).depth 0) + 1
    = max c.depth 1 + 2
  rw [depth_metadata, depth_configDoc]
  omega

/-- The base parse rejects a document nested deeper than the limit. -/
theorem baseParse_deep (j : JSON) (hd : maxNestingDepth < j.depth) :
    baseParse (.valid j) = .error .exceededMaxDepth := by
  simp only [baseParse, hd, if_true]

/-- The base parse of an encoded `config` within the nesting limit: the
position, and the typed object the encoded content parses to. -/
theorem baseParse_config (enc : JSON) (pos : PanelPosition) (o : typedObject)
    (h : typedObject.parse enc = .ok o) (hd : enc.depth < maxNestingDepth) :
    baseParse (.valid (.obj [("content", enc), ("position", pos.marshal)]))
      = .ok { Position := pos, Content := o } := by
  have hlim : ¬ maxNestingDepth <
      (JSON.obj [("content", enc), ("position", pos.marshal)]).depth := by
    have hc := depth_configDoc enc pos
    simp only [configDoc] at hc
    have h2 : 2 ≤ maxNestingDepth := by decide
    rw [hc]
    omega
  rw [baseParse, if_neg hlim]
  have e1 : equalFold "content" "Position" = false := by decide
  have e2 : equalFold "content" "Content" = true := by decide
  have e3 : equalFold "position" "Position" = true := by decide
  have h' : decodeStruct "Content" typedObject.step typedObject.zero enc = .ok o := h
  simp only [baseParse, decodeStruct_obj, List.foldlM, UnmarshalTarget.step, e1, e2, e3, h',
    position_parse_marshal, Except.map, bind, Except.bind, if_true, if_false,
    Bool.false_eq_true]
  rfl

/-- An encoded Panel parses to the typed object of its envelope and its
`config`. -/
theorem parse_panel (md : Metadata) (cfg : JSON) :
    typedObject.parse (.obj [("metadata", md.marshal), ("config", cfg)])
      = .ok { Config := .valid cfg, Metadata := md } := by
  have e1 : equalFold "metadata" "config" = false := by decide
  have e2 : equalFold "metadata" "metadata" = true := by decide
  have e3 : equalFold "config" "config" = true := by decide
  have hz : typedObject.zero.Metadata = Metadata.zero := rfl
  simp only [typedObject.parse, decodeStruct_obj, List.foldlM, typedObject.step, e1, e2, e3, hz,
    metadata_parse_marshal, Except.map, bind, Except.bind, if_true, if_false,
    Bool.false_eq_true]
  rfl

/-- Members whose key does not select the field `Position` leave it as it is. -/
theorem foldlM_step_position (ms : List (String × JSON)) :
    ∀ x x' : UnmarshalTarget, (∀ kv ∈ ms, equalFold kv.1 "Position" = false) →
      ms.foldlM UnmarshalTarget.step x = .ok x' → x'.Position = x.Position := by
  induction ms with
  | nil =>
    intro x x' _ h
    simp only [List.foldlM, pure, Except.pure] at h
    injection h with h
    rw [h]
  | cons kv rest ih =>
    intro x x' hk h
    have hkv : equalFold kv.1 "Position" = false := hk kv (List.mem_cons_self _ _)
    have hrest : ∀ kv' ∈ rest, equalFold kv'.1 "Position" = false :=
      fun kv' hm => hk kv' (List.mem_cons_of_mem _ hm)
    simp only [List.foldlM, bind, Except.bind] at h
    cases hs : UnmarshalTarget.step x kv with
    | error e => rw [hs] at h; cases h
    | ok x1 =>
      rw [hs] at h
      have h1 : x1.Position = x.Position := by
        simp only [UnmarshalTarget.step, hkv, Bool.false_eq_true, if_false] at hs
        split at hs
        · cases hd : decodeStruct "Content" typedObject.step x.Content kv.2 with
          | error e => rw [hd] at hs; cases hs
          | ok c =>
            rw [hd] at hs
            simp only [Except.map] at hs
            injection hs with hs
            rw [← hs]
        · injection hs with hs
          rw [← hs]
      rw [ih x1 x' hrest h, h1]

/-! ### `PanelConfig.UnmarshalJSON`, by the outcome of the base parse -/

/-- When the base parse fails, the receiver is untouched and the error of the
parse is returned. -/
theorem UnmarshalJSON_of_error {L : Type} (toVC : typedObject → ViewComponent L × Option Err)
    (t : PanelConfig L) (data : Bytes) (e : Err) (h : baseParse data = .error e) :
    PanelConfig.UnmarshalJSON toVC t data = (t, some e) := by
  simp only [PanelConfig.UnmarshalJSON, h]

/-- When the base parse succeeds, both fields of the receiver are assigned and
the error of the decode of the content, nil or not, is returned. -/
theorem UnmarshalJSON_of_ok {L : Type} (toVC : typedObject → ViewComponent L × Option Err)
    (t : PanelConfig L) (data : Bytes) (x : UnmarshalTarget) (h : baseParse data = .ok x) :
    PanelConfig.UnmarshalJSON toVC t data
      = ({ Content := (toVC x.Content).1, Position := x.Position }, (toVC x.Content).2) := by
  simp only [PanelConfig.UnmarshalJSON, h]
  cases (toVC x.Content).2 <;> rfl

/-- C4. `PanelConfig.UnmarshalJSON` returns an error exactly when the base
parse of the document fails or the decode of the content fails; after a base
parse that succeeds, the error returned is the one `ToViewComponent` returned;
and when it reports success the content stored is the component
`ToViewComponent` returned with a nil error. -/
theorem UnmarshalJSON_error_iff {L : Type} (toVC : typedObject → ViewComponent L × Option Err)
    (t : PanelConfig L) (data : Bytes) :
    ((PanelConfig.UnmarshalJSON toVC t data).2 ≠ none ↔
        ((∃ e, baseParse data = .error e) ∨
         (∃ x, baseParse data = .ok x ∧ (toVC x.Content).2 ≠ none)))
      ∧ (∀ e, baseParse data = .error e → (PanelConfig.UnmarshalJSON toVC t data).2 = some e)
      ∧ (∀ x, baseParse data = .ok x →
          (PanelConfig.UnmarshalJSON toVC t data).2 = (toVC x.Content).2)
      ∧ ((PanelConfig.UnmarshalJSON toVC t data).2 = none →
          ∃ x, baseParse data = .ok x ∧ (toVC x.Content).2 = none ∧
            (PanelConfig.UnmarshalJSON toVC t data).1.Content = (toVC x.Content).1) := by
  cases hb : baseParse data with
  | error e =>
    rw [UnmarshalJSON_of_error toVC t data e hb]
    refine ⟨⟨fun _ => Or.inl ⟨e, rfl⟩, fun _ h => by cases h⟩, ?_, ?_, ?_⟩
    · intro e' he; cases he; rfl
    · intro x hx; cases hx
    · intro h; cases h
  | ok x =>
    rw [UnmarshalJSON_of_ok toVC t data x hb]
    refine ⟨⟨fun h => Or.inr ⟨x, rfl, h⟩, ?_⟩, ?_, ?_, ?_⟩
    · rintro (⟨e, he⟩ | ⟨x', hx', h⟩)
      · cases he
      · cases hx'; exact h
    · intro e he; cases he
    · intro x' hx'; cases hx'; rfl
    · intro h; exact ⟨x, rfl, h, rfl⟩

/-- C3, as the code has it. When `PanelConfig.UnmarshalJSON` returns an error,
either the base parse failed with that error and the receiver is exactly as it
was, or the base parse succeeded, the decode of the content failed with that
error, and the receiver holds the position of the document and the component
`ToViewComponent` returned with its error. -/
theorem UnmarshalJSON_failure_state {L : Type}
    (toVC : typedObject → ViewComponent L × Option Err)
    (t : PanelConfig L) (data : Bytes) (e : Err)
    (h : (PanelConfig.UnmarshalJSON toVC t data).2 = some e) :
    (baseParse data = .error e ∧ (PanelConfig.UnmarshalJSON toVC t data).1 = t)
      ∨ (∃ x, baseParse data = .ok x ∧ (toVC x.Content).2 = some e ∧
          (PanelConfig.UnmarshalJSON toVC t data).1
            = { Content := (toVC x.Content).1, Position := x.Position }) := by
  cases hb : baseParse data with
  | error e' =>
    rw [UnmarshalJSON_of_error toVC t data e' hb] at h ⊢
    injection h with h
    exact Or.inl ⟨by rw [h], rfl⟩
  | ok x =>
    rw [UnmarshalJSON_of_ok toVC t data x hb] at h ⊢
    exact Or.inr ⟨x, rfl, h, rfl⟩

/-- C3 fails on the code: decoding `bogusConfig` into the config of
`samplePanel` returns the unknown-variant error, and the receiver has lost its
position `{0, 0, 12, 4}` and its content. -/
theorem UnmarshalJSON_failure_changes_receiver :
    (PanelConfig.UnmarshalJSON (ToViewComponent textVariants 1) samplePanel.Config
        bogusConfig).2 = some (.unknownVariant "Bogus")
      ∧ (PanelConfig.UnmarshalJSON (ToViewComponent textVariants 1) samplePanel.Config
          bogusConfig).1 ≠ samplePanel.Config
      ∧ (PanelConfig.UnmarshalJSON (ToViewComponent textVariants 1) samplePanel.Config
          bogusConfig).1.Position
            = { X := ⟨9, by decide⟩, Y := ⟨9, by decide⟩, W := ⟨9, by decide⟩,
                H := ⟨9, by decide⟩ }
      ∧ samplePanel.Config.Position = samplePosition
      ∧ (PanelConfig.UnmarshalJSON (ToViewComponent textVariants 1) samplePanel.Config
          bogusConfig).1.Content = .nil
      ∧ samplePanel.Config.Content = sampleLeaf := by
  refine ⟨rfl, by decide, rfl, rfl, rfl, rfl⟩

/-- C3 as the code has it, at `bogusConfig`: the base parse succeeds, the decode of
the content fails, and the receiver holds the position of the document. -/
theorem UnmarshalJSON_failure_state_witness :
    (PanelConfig.UnmarshalJSON (ToViewComponent textVariants 1) samplePanel.Config
        bogusConfig).2 = some (.unknownVariant "Bogus")
      ∧ ((baseParse bogusConfig = .error (.unknownVariant "Bogus") ∧
            (PanelConfig.UnmarshalJSON (ToViewComponent textVariants 1) samplePanel.Config
              bogusConfig).1 = samplePanel.Config)
          ∨ (∃ x, baseParse bogusConfig = .ok x ∧
              (ToViewComponent textVariants 1 x.Content).2 = some (.unknownVariant "Bogus") ∧
              (PanelConfig.UnmarshalJSON (ToViewComponent textVariants 1) samplePanel.Config
                bogusConfig).1
                = { Content := (ToViewComponent textVariants 1 x.Content).1,
                    Position := x.Position })) :=
  ⟨rfl, UnmarshalJSON_failure_state (ToViewComponent textVariants 1) samplePanel.Config
    bogusConfig (.unknownVariant "Bogus") rfl⟩

/-- C10. When `PanelConfig.UnmarshalJSON` succeeds on a document for one
receiver, it succeeds for any other and leaves both equal; the content is the
newly decoded component, and a document without a member `position` leaves
the position `{0, 0, 0, 0}`. -/
theorem UnmarshalJSON_result_independent {L : Type}
    (toVC : typedObject → ViewComponent L × Option Err)
    (data : Bytes) (t1 t2 : PanelConfig L)
    (h : (PanelConfig.UnmarshalJSON toVC t1 data).2 = none) :
    (PanelConfig.UnmarshalJSON toVC t2 data).2 = none
      ∧ (PanelConfig.UnmarshalJSON toVC t1 data).1 = (PanelConfig.UnmarshalJSON toVC t2 data).1
      ∧ (∃ x, baseParse data = .ok x ∧
          (PanelConfig.UnmarshalJSON toVC t1 data).1.Content = (toVC x.Content).1)
      ∧ (∀ ms, data = .valid (.obj ms) → (∀ kv ∈ ms, equalFold kv.1 "Position" = false) →
          (PanelConfig.UnmarshalJSON toVC t1 data).1.Position = PanelPosition.zero) := by
  cases hb : baseParse data with
  | error e =>
    rw [UnmarshalJSON_of_error toVC t1 data e hb] at h
    cases h
  | ok x =>
    rw [UnmarshalJSON_of_ok toVC t1 data x hb] at h ⊢
    rw [UnmarshalJSON_of_ok toVC t2 data x hb]
    refine ⟨h, rfl, ⟨x, rfl, rfl⟩, ?_⟩
    intro ms hd hk
    subst hd
    simp only [baseParse] at hb
    split at hb
    · cases hb
    · exact foldlM_step_position ms _ x hk hb

/-- C10 at `contentOnlyConfig`, for a receiver that holds a position and for
the zero receiver. -/
theorem UnmarshalJSON_result_independent_witness :
    (PanelConfig.UnmarshalJSON (ToViewComponent textVariants 1) samplePanel.Config
        contentOnlyConfig).2 = none
      ∧ (PanelConfig.UnmarshalJSON (ToViewComponent textVariants 1) samplePanel.Config
          contentOnlyConfig).1
          = (PanelConfig.UnmarshalJSON (ToViewComponent textVariants 1) PanelConfig.zero
              contentOnlyConfig).1
      ∧ (PanelConfig.UnmarshalJSON (ToViewComponent textVariants 1) samplePanel.Config
          contentOnlyConfig).1.Position = PanelPosition.zero :=
  ⟨rfl,
   (UnmarshalJSON_result_independent (ToViewComponent textVariants 1) contentOnlyConfig
      samplePanel.Config PanelConfig.zero rfl).2.1,
   (UnmarshalJSON_result_independent (ToViewComponent textVariants 1) contentOnlyConfig
      samplePanel.Config PanelConfig.zero rfl).2.2.2 _ rfl (by decide)⟩

/-- C2 at `mistaggedPanel`, which stores the discriminator `text`. -/
theorem MarshalJSON_tag_witness :
    (mistaggedPanel.MarshalJSON textVariants).2
        = .ok (.obj [("metadata", .obj [("type", .str "Panel")]),
                     ("config", .obj [("content", .null),
                                      ("position", samplePosition.marshal)])])
      ∧ ((JSON.obj [("metadata", .obj [("type", .str "Panel")]),
                    ("config", .obj [("content", .null),
                                     ("position", samplePosition.marshal)])]).get
            "metadata").bind (JSON.get "type") = some (.str "Panel") :=
  ⟨rfl, (MarshalJSON_tag textVariants mistaggedPanel _ rfl).1⟩

/-- C6. The document returned by `Panel.MarshalJSON` is an object with exactly
the members `metadata`, which carries the envelope with the Panel
discriminator, and `config`; `config` has exactly the members `content` and
`position`; `position` has exactly the integer members `x`, `y`, `w`, `h`,
with the values of the four fields as they are; and `content` is the encoding
of the content as a typed object: `null` for a nil content, the document the
`MarshalJSON` of another variant returned, and for a content that is a Panel
the document `Panel.MarshalJSON` returns for that Panel, again an object with
the members `metadata`, tagged Panel, and `config`. -/
theorem MarshalJSON_shape {L : Type} (V : Variants L) (p : Panel L) (doc : JSON)
    (h : (p.MarshalJSON V).2 = .ok doc) :
    ∃ c,
      doc = .obj
        [("metadata", Metadata.marshal { Type_ := typePanel, Title := p.Metadata.Title }),
         ("config", .obj
            [("content", c),
             ("position", .obj
                [("x", .num p.Config.Position.X.val), ("y", .num p.Config.Position.Y.val),
                 ("w", .num p.Config.Position.W.val), ("h", .num p.Config.Position.H.val)])])]
      ∧ (match p.Config.Content with
         | .nil => c = .null
         | .other l => V.MarshalJSON l = .ok c
         | .panel b inner pos =>
           (Panel.MarshalJSON V
              { tobase := b, Config := { Content := inner, Position := pos } }).2 = .ok c
             ∧ ∃ ci,
                 c = .obj
                   [("metadata",
                       Metadata.marshal { Type_ := typePanel, Title := b.Metadata.Title }),
                    ("config", .obj
                       [("content", ci),
                        ("position", .obj
                           [("x", .num pos.X.val), ("y", .num pos.Y.val),
                            ("w", .num pos.W.val), ("h", .num pos.H.val)])])]) := by
  obtain ⟨c, hc, _, hdoc⟩ := MarshalJSON_ok V p doc h
  refine ⟨c, hdoc, ?_⟩
  cases hcontent : p.Config.Content with
  | nil =>
    rw [hcontent] at hc
    simp only [ViewComponent.marshal] at hc
    injection hc with hc
    exact hc.symm
  | other l =>
    rw [hcontent] at hc
    exact hc
  | panel b inner pos =>
    rw [hcontent] at hc
    have hc' : (Panel.MarshalJSON V
        { tobase := b, Config := { Content := inner, Position := pos } }).2 = .ok c := hc
    obtain ⟨ci, _, _, hci⟩ := MarshalJSON_ok V _ c hc'
    exact ⟨hc', ci, hci⟩

/-- C6 at `sampleOuter`, a Panel whose content is a Panel. -/
theorem MarshalJSON_shape_witness :
    (sampleOuter.MarshalJSON textVariants).2 = .ok sampleOuterDoc
      ∧ ∃ c,
          sampleOuterDoc = .obj
            [("metadata", Metadata.marshal { Type_ := typePanel, Title := some "Outer" }),
             ("config", .obj
                [("content", c),
                 ("position", .obj
                    [("x", .num 1), ("y", .num 2), ("w", .num 3), ("h", .num (-4))])])]
          ∧ ((samplePanel.MarshalJSON textVariants).2 = .ok c
              ∧ ∃ ci,
                  c = .obj
                    [("metadata",
                        Metadata.marshal { Type_ := typePanel, Title := some "Overview" }),
                     ("config", .obj
                        [("content", ci),
                         ("position", .obj
                            [("x", .num 0), ("y", .num 0), ("w", .num 12),
                             ("h", .num 4)])])]) :=
  ⟨rfl, MarshalJSON_shape textVariants sampleOuter sampleOuterDoc rfl⟩

/-- C1, within the nesting limit. A Panel built by `NewPanel` and positioned by
`Position` encodes, and when the typed-object decoder rebuilds the content
from its encoding and that encoding is nested less than `maxNestingDepth`
deep, `PanelConfig.UnmarshalJSON` on the member `config` of the encoded Panel
succeeds, for any receiver, and yields the `Config` of the Panel: the position
`{x, y, w, h}` and the content. -/
theorem Panel_round_trip {L : Type} (V : Variants L)
    (toVC : typedObject → ViewComponent L × Option Err)
    (title : String) (content : ViewComponent L) (x y w h : GoInt)
    (enc : JSON) (o : typedObject)
    (henc : content.marshal V = .ok enc) (hparse : typedObject.parse enc = .ok o)
    (hdec : toVC o = (content, none)) (hdepth : enc.depth < maxNestingDepth) :
    ∃ doc cfg,
      (((NewPanel title content).Position x y w h).MarshalJSON V).2 = .ok doc
        ∧ doc.get "config" = some cfg
        ∧ (∀ t : PanelConfig L,
            PanelConfig.UnmarshalJSON toVC t (.valid cfg)
              = (((NewPanel title content).Position x y w h).Config, none))
        ∧ ((NewPanel title content).Position x y w h).Config
            = { Content := content, Position := { X := x, Y := y, W := w, H := h } } := by
  refine ⟨_, _, MarshalJSON_of_content V _ enc henc (Nat.le_of_lt hdepth), rfl, fun t => ?_, rfl⟩
  rw [UnmarshalJSON_of_ok toVC t _ _ (baseParse_config enc _ o hparse hdepth), hdec]
  rfl

/-- C1 at the scenario of the spec: `NewPanel("Overview", leaf)`, then
`Position(0, 0, 12, 4)`, with the decoder of the typed objects. -/
theorem Panel_round_trip_witness :
    (sampleLeaf.marshal textVariants = .ok sampleLeafDoc
        ∧ typedObject.parse sampleLeafDoc = .ok sampleLeafObject
        ∧ ToViewComponent textVariants 1 sampleLeafObject = (sampleLeaf, none)
        ∧ sampleLeafDoc.depth < maxNestingDepth)
      ∧ ∃ doc cfg,
          (samplePanel.MarshalJSON textVariants).2 = .ok doc
            ∧ doc.get "config" = some cfg
            ∧ (∀ t : PanelConfig String,
                PanelConfig.UnmarshalJSON (ToViewComponent textVariants 1) t (.valid cfg)
                  = (samplePanel.Config, none))
            ∧ samplePanel.Config = { Content := sampleLeaf, Position := samplePosition } :=
  ⟨⟨rfl, rfl, rfl, by decide⟩,
   Panel_round_trip textVariants (ToViewComponent textVariants 1) "Overview" sampleLeaf
     ⟨0, by decide⟩ ⟨0, by decide⟩ ⟨12, by decide⟩ ⟨4, by decide⟩ sampleLeafDoc
     sampleLeafObject rfl rfl rfl (by decide)⟩

/-! ### Nesting -/

/-- The decode of a typed object that holds a Panel, one level of fuel down. -/
theorem ToViewComponent_panel {L : Type} (V : Variants L) (fuel : Nat) (o : typedObject)
    (h : o.Metadata.Type_ = typePanel) :
    ToViewComponent V (fuel + 1) o
      = match (PanelConfig.UnmarshalJSON (ToViewComponent V fuel) PanelConfig.zero o.Config).2 with
        | some err => (.nil, some (surfaced err))
        | none =>
          (.panel { Metadata := o.Metadata }
            (PanelConfig.UnmarshalJSON (ToViewComponent V fuel) PanelConfig.zero o.Config).1.Content
            (PanelConfig.UnmarshalJSON (ToViewComponent V fuel) PanelConfig.zero
              o.Config).1.Position, none) := by
  have hp : ¬ typePanel = "" := by decide
  simp only [ToViewComponent, h, hp, if_true, if_false]

/-- A value of another variant that decodes with one unit of fuel decodes with
any larger amount. -/
theorem ToViewComponent_other_fuel {L : Type} (V : Variants L) (o : typedObject) (l : L)
    (h : ToViewComponent V 1 o = (.other l, none)) (fuel : Nat) :
    ToViewComponent V (fuel + 1) o = (.other l, none) := by
  by_cases h0 : o.Metadata.Type_ = ""
  · simp only [ToViewComponent, h0, if_true] at h
    cases h
  · by_cases h1 : o.Metadata.Type_ = typePanel
    · rw [ToViewComponent_panel V 0 o h1] at h
      split at h <;> cases h
    · simp only [ToViewComponent, h0, h1, if_false] at h ⊢
      exact h

/-- The document of a value that round-trips is an object, so at least one
level deep. -/
theorem RoundTrips_depth {L : Type} (V : Variants L) (l : L) (enc : JSON) (o : typedObject)
    (hl : RoundTrips V l enc o) : 1 ≤ enc.depth := by
  obtain ⟨_, hparse, hdec⟩ := hl
  cases enc with
  | null =>
    simp only [typedObject.parse, decodeStruct] at hparse
    injection hparse with hparse
    subst hparse
    simp [ToViewComponent, typedObject.zero, Metadata.zero] at hdec
  | obj ms => simp [JSON.depth]
  | bool b => simp [typedObject.parse, decodeStruct] at hparse
  | num n => simp [typedObject.parse, decodeStruct] at hparse
  | frac s => simp [typedObject.parse, decodeStruct] at hparse
  | str s => simp [typedObject.parse, decodeStruct] at hparse
  | arr xs => simp [typedObject.parse, decodeStruct] at hparse

/-- The document of a chain is two levels deeper per Panel than the document
of the innermost content. -/
theorem depth_chainDoc (enc : JSON) (h1 : 1 ≤ enc.depth) :
    ∀ ps : List (base × PanelPosition), (chainDoc enc ps).depth = enc.depth + 2 * ps.length := by
  intro ps
  induction ps with
  | nil => simp [chainDoc]
  | cons bp rest ih =>
    simp only [chainDoc, depth_panelDoc, ih, List.length_cons]
    omega

/-- A chain of Panels encodes to `chainDoc` as long as the document of the
content of the outermost Panel is within the nesting limit. -/
theorem nest_marshal {L : Type} (V : Variants L) (l : L) (enc : JSON)
    (hm : V.MarshalJSON l = .ok enc) (h1 : 1 ≤ enc.depth) :
    ∀ ps : List (base × PanelPosition), enc.depth + 2 * ps.length ≤ maxNestingDepth + 2 →
      (nest (.other l) ps).marshal V = .ok (chainDoc enc ps) := by
  intro ps
  induction ps with
  | nil => intro _; exact hm
  | cons bp rest ih =>
    intro hd
    simp only [List.length_cons] at hd
    have hrest : (nest (.other l) rest).marshal V = .ok (chainDoc enc rest) := ih (by omega)
    have hdr : (chainDoc enc rest).depth ≤ maxNestingDepth := by
      rw [depth_chainDoc enc h1 rest]; omega
    show marshalStruct _ ((nest (.other l) rest).marshal V) bp.2 = _
    rw [hrest, marshalStruct_ok _ _ _ hdr]
    rfl

/-- The document of a chain parses to `chainObject`. -/
theorem parse_chainDoc (enc : JSON) (o : typedObject) (hp : typedObject.parse enc = .ok o) :
    ∀ ps : List (base × PanelPosition),
      typedObject.parse (chainDoc enc ps) = .ok (chainObject enc o ps) := by
  intro ps
  cases ps with
  | nil => exact hp
  | cons bp rest => exact parse_panel _ _

/-- The decode procedure rebuilds a chain of Panels from `chainObject` as soon
as the fuel exceeds the number of Panels and the `config` of the outermost
Panel is within the nesting limit. -/
theorem nest_decode {L : Type} (V : Variants L) (l : L) (enc : JSON) (o : typedObject)
    (hl : RoundTrips V l enc o) :
    ∀ (ps : List (base × PanelPosition)) (fuel : Nat), ps.length < fuel →
      enc.depth + 2 * ps.length ≤ maxNestingDepth + 1 →
      ToViewComponent V fuel (chainObject enc o ps)
        = (nest (.other l) (ps.map retagged), none) := by
  have h1 := RoundTrips_depth V l enc o hl
  intro ps
  induction ps with
  | nil =>
    intro fuel hf _
    obtain ⟨f, rfl⟩ : ∃ f, fuel = f + 1 := ⟨fuel - 1, by simp at hf; omega⟩
    exact ToViewComponent_other_fuel V o l hl.2.2 f
  | cons bp rest ih =>
    intro fuel hf hd
    simp only [List.length_cons] at hf hd
    obtain ⟨f, rfl⟩ : ∃ f, fuel = f + 1 := ⟨fuel - 1, by omega⟩
    have hdr : (chainDoc enc rest).depth < maxNestingDepth := by
      rw [depth_chainDoc enc h1 rest]; omega
    have hbase := baseParse_config (chainDoc enc rest) bp.2 (chainObject enc o rest)
      (parse_chainDoc enc o hl.2.1 rest) hdr
    have hrec := ih f (by omega) (by omega)
    have hcfg : (chainObject enc o (bp :: rest)).Config
        = .valid (.obj [("content", chainDoc enc rest), ("position", bp.2.marshal)]) := rfl
    rw [ToViewComponent_panel V f _ rfl, hcfg, UnmarshalJSON_of_ok _ _ _ _ hbase, hrec]
    rfl

/-- A chain of Panels built with the Panel discriminator is its own retagged
chain. -/
theorem map_retagged_of_tagged (ps : List (base × PanelPosition))
    (hps : ∀ q ∈ ps, q.1.Metadata.Type_ = typePanel) : ps.map retagged = ps := by
  conv_rhs => rw [← List.map_id ps]
  apply List.map_congr_left
  intro q hqm
  obtain ⟨⟨⟨ty, ti⟩⟩, pos⟩ := q
  have := hps _ hqm
  simp only at this
  simp [retagged, retag, this]

/-- C5, within the nesting limit. For a chain of `rest.length + 1` Panels over
a leaf that round-trips, whatever its length, as long as the document of the
outermost Panel, which is two levels deeper per Panel than the document of the
leaf, nests no deeper than `maxNestingDepth`: `Panel.MarshalJSON` of the
outermost Panel returns the document of the chain; `PanelConfig.UnmarshalJSON`
on its member `config`, re-entering the decode procedure for each content,
succeeds as soon as the fuel exceeds the number of inner Panels and yields the
position of the outermost Panel and the inner chain; the decode of the whole
document yields the whole chain; every Panel comes back with its position and
the Panel discriminator, the leaf comes back as it was, and a chain of Panels
built by `NewPanel` comes back equal. -/
theorem nested_round_trip {L : Type} (V : Variants L) (l : L) (enc : JSON) (o : typedObject)
    (hl : RoundTrips V l enc o)
    (bp : base × PanelPosition) (rest : List (base × PanelPosition))
    (hd : enc.depth + 2 * (rest.length + 1) ≤ maxNestingDepth) :
    ((chainHead (.other l) bp rest).MarshalJSON V).2 = .ok (chainDoc enc (bp :: rest))
      ∧ (chainDoc enc (bp :: rest)).get "config" = some (configDoc (chainDoc enc rest) bp.2)
      ∧ typedObject.unmarshal (.valid (chainDoc enc (bp :: rest)))
          = .ok (chainObject enc o (bp :: rest))
      ∧ (∀ fuel, rest.length < fuel → ∀ t : PanelConfig L,
          PanelConfig.UnmarshalJSON (ToViewComponent V fuel) t
              (.valid (configDoc (chainDoc enc rest) bp.2))
            = ({ Content := nest (.other l) (rest.map retagged), Position := bp.2 }, none))
      ∧ (∀ fuel, (bp :: rest).length < fuel →
          ToViewComponent V fuel (chainObject enc o (bp :: rest))
            = (nest (.other l) ((bp :: rest).map retagged), none))
      ∧ ((bp :: rest).map retagged).map Prod.snd = (bp :: rest).map Prod.snd
      ∧ ((∀ q ∈ bp :: rest, q.1.Metadata.Type_ = typePanel) →
          (bp :: rest).map retagged = bp :: rest) := by
  have h1 := RoundTrips_depth V l enc o hl
  have hdr : (chainDoc enc rest).depth < maxNestingDepth := by
    rw [depth_chainDoc enc h1 rest]; omega
  have hrest : (nest (.other l) rest).marshal V = .ok (chainDoc enc rest) :=
    nest_marshal V l enc hl.1 h1 rest (by omega)
  have hwhole : ¬ maxNestingDepth < (chainDoc enc (bp :: rest)).depth := by
    rw [depth_chainDoc enc h1 (bp :: rest), List.length_cons]; omega
  refine ⟨MarshalJSON_of_content V (chainHead (.other l) bp rest) _ hrest (Nat.le_of_lt hdr),
    rfl, ?_, ?_, ?_, ?_, map_retagged_of_tagged _⟩
  · rw [typedObject.unmarshal, if_neg hwhole]
    exact parse_chainDoc enc o hl.2.1 (bp :: rest)
  · intro fuel hf t
    have hbase := baseParse_config (chainDoc enc rest) bp.2 (chainObject enc o rest)
      (parse_chainDoc enc o hl.2.1 rest) hdr
    have hrec := nest_decode V l enc o hl rest fuel hf (by omega)
    show PanelConfig.UnmarshalJSON _ t
      (.valid (.obj [("content", chainDoc enc rest), ("position", bp.2.marshal)])) = _
    rw [UnmarshalJSON_of_ok _ t _ _ hbase, hrec]
  · intro fuel hf
    exact nest_decode V l enc o hl (bp :: rest) fuel hf (by simp only [List.length_cons]; omega)
  · simp [retagged, Function.comp_def]

/-- A content whose envelope carries no discriminator fails with the
missing-tag error, and no component is stored in its place. -/
theorem UnmarshalJSON_missing_tag :
    PanelConfig.UnmarshalJSON (ToViewComponent textVariants 1) (PanelConfig.zero)
        (.valid (.obj [("content", .obj [("metadata", .obj []), ("config", .obj [])])]))
      = (PanelConfig.zero, some .missingTypeTag) := rfl

/-- The text leaf round-trips through `sampleLeafDoc`. -/
theorem sampleLeaf_round_trips :
    RoundTrips textVariants "hello" sampleLeafDoc sampleLeafObject :=
  ⟨rfl, rfl, rfl⟩

/-- The sample chain of `n` Panels has `n` Panels. -/
theorem sampleChain_length (n : Nat) : (sampleChain n).length = n :=
  List.length_replicate _ _

/-- The Panels of the sample chain carry the Panel discriminator. -/
theorem sampleChain_retagged (n : Nat) : (sampleChain n).map retagged = sampleChain n :=
  map_retagged_of_tagged _ (fun q hq => by
    rw [List.eq_of_mem_replicate hq]
    rfl)

/-- C5 at a chain of three Panels over the text leaf. -/
theorem nested_round_trip_witness :
    (RoundTrips textVariants "hello" sampleLeafDoc sampleLeafObject
        ∧ sampleLeafDoc.depth + 2 * (sampleRest.length + 1) ≤ maxNestingDepth)
      ∧ (((chainHead sampleLeaf (sampleBase "outer", samplePosition) sampleRest).MarshalJSON
              textVariants).2
            = .ok (chainDoc sampleLeafDoc ((sampleBase "outer", samplePosition) :: sampleRest))
          ∧ (chainDoc sampleLeafDoc ((sampleBase "outer", samplePosition) :: sampleRest)).get
                "config"
              = some (configDoc (chainDoc sampleLeafDoc sampleRest) samplePosition)
          ∧ typedObject.unmarshal
                (.valid (chainDoc sampleLeafDoc
                  ((sampleBase "outer", samplePosition) :: sampleRest)))
              = .ok (chainObject sampleLeafDoc sampleLeafObject
                  ((sampleBase "outer", samplePosition) :: sampleRest))
          ∧ (∀ fuel, sampleRest.length < fuel → ∀ t : PanelConfig String,
              PanelConfig.UnmarshalJSON (ToViewComponent textVariants fuel) t
                  (.valid (configDoc (chainDoc sampleLeafDoc sampleRest) samplePosition))
                = ({ Content := nest sampleLeaf (sampleRest.map retagged),
                     Position := samplePosition }, none))
          ∧ (∀ fuel, ((sampleBase "outer", samplePosition) :: sampleRest).length < fuel →
              ToViewComponent textVariants fuel
                  (chainObject sampleLeafDoc sampleLeafObject
                    ((sampleBase "outer", samplePosition) :: sampleRest))
                = (nest sampleLeaf
                    (((sampleBase "outer", samplePosition) :: sampleRest).map retagged), none))
          ∧ (((sampleBase "outer", samplePosition) :: sampleRest).map retagged).map Prod.snd
              = ((sampleBase "outer", samplePosition) :: sampleRest).map Prod.snd
          ∧ ((∀ q ∈ (sampleBase "outer", samplePosition) :: sampleRest,
                q.1.Metadata.Type_ = typePanel) →
              ((sampleBase "outer", samplePosition) :: sampleRest).map retagged
                = (sampleBase "outer", samplePosition) :: sampleRest)) :=
  ⟨⟨⟨rfl, rfl, rfl⟩, by decide⟩,
   nested_round_trip textVariants "hello" sampleLeafDoc sampleLeafObject ⟨rfl, rfl, rfl⟩
     (sampleBase "outer", samplePosition) sampleRest (by decide)⟩

/-- The outermost Panel of a chain encodes when the document of its content is
within the nesting limit. -/
theorem chainHead_marshal {L : Type} (V : Variants L) (l : L) (enc : JSON)
    (hm : V.MarshalJSON l = .ok enc) (h1 : 1 ≤ enc.depth)
    (bp : base × PanelPosition) (rest : List (base × PanelPosition))
    (hd : enc.depth + 2 * rest.length ≤ maxNestingDepth) :
    ((chainHead (.other l) bp rest).MarshalJSON V).2 = .ok (chainDoc enc (bp :: rest)) :=
  MarshalJSON_of_content V (chainHead (.other l) bp rest) _
    (nest_marshal V l enc hm h1 rest (by omega)) (by rw [depth_chainDoc enc h1 rest]; exact hd)

/-- The outermost Panel of a chain does not encode when the document of its
content, itself encoded, exceeds the nesting limit. -/
theorem chainHead_marshal_deep {L : Type} (V : Variants L) (l : L) (enc : JSON)
    (hm : V.MarshalJSON l = .ok enc) (h1 : 1 ≤ enc.depth)
    (bp : base × PanelPosition) (rest : List (base × PanelPosition))
    (hle : enc.depth + 2 * rest.length ≤ maxNestingDepth + 2)
    (hd : maxNestingDepth < enc.depth + 2 * rest.length) :
    ((chainHead (.other l) bp rest).MarshalJSON V).2 = .error (.marshaler .exceededMaxDepth) := by
  show marshalStruct _ ((nest (.other l) rest).marshal V) _ = _
  rw [nest_marshal V l enc hm h1 rest hle]
  exact marshalStruct_deep _ _ _ (by rw [depth_chainDoc enc h1 rest]; exact hd)

/-- The member `config` of an encoded Panel is rejected, whatever the receiver
and the decoder, when the document of the content is already at the nesting
limit. -/
theorem chain_config_deep {L : Type} (toVC : typedObject → ViewComponent L × Option Err)
    (t : PanelConfig L) (enc : JSON) (h1 : 1 ≤ enc.depth)
    (rest : List (base × PanelPosition)) (pos : PanelPosition)
    (hd : maxNestingDepth ≤ enc.depth + 2 * rest.length) :
    PanelConfig.UnmarshalJSON toVC t (.valid (configDoc (chainDoc enc rest) pos))
      = (t, some .exceededMaxDepth) := by
  have hdeep : maxNestingDepth < (configDoc (chainDoc enc rest) pos).depth := by
    rw [depth_configDoc, depth_chainDoc enc h1 rest]; omega
  exact UnmarshalJSON_of_error _ _ _ _ (baseParse_deep _ hdeep)

/-- C5 fails on the code beyond the nesting limit of `encoding/json`, over the
text leaf, which round-trips. For a chain of 5000 Panels `Panel.MarshalJSON`
of the outermost Panel returns a document, but `PanelConfig.UnmarshalJSON` on
its member `config`, which is nested 10001 deep, returns the error
`exceeded max depth` and decodes nothing. For a chain of 5001 Panels
`Panel.MarshalJSON` of the outermost Panel itself fails, the document of its
content being nested 10002 deep. -/
theorem nested_round_trip_fails_beyond_limit :
    RoundTrips textVariants "hello" sampleLeafDoc sampleLeafObject
      ∧ ((chainHead sampleLeaf (sampleBase "level", samplePosition)
            (sampleChain 4999)).MarshalJSON textVariants).2
          = .ok (chainDoc sampleLeafDoc ((sampleBase "level", samplePosition) :: sampleChain 4999))
      ∧ (chainDoc sampleLeafDoc ((sampleBase "level", samplePosition) :: sampleChain 4999)).get
            "config"
          = some (configDoc (chainDoc sampleLeafDoc (sampleChain 4999)) samplePosition)
      ∧ (∀ fuel : Nat,
          PanelConfig.UnmarshalJSON (ToViewComponent textVariants fuel) PanelConfig.zero
              (.valid (configDoc (chainDoc sampleLeafDoc (sampleChain 4999)) samplePosition))
            = (PanelConfig.zero, some .exceededMaxDepth))
      ∧ ((chainHead sampleLeaf (sampleBase "level", samplePosition)
            (sampleChain 5000)).MarshalJSON textVariants).2
          = .error (.marshaler .exceededMaxDepth) := by
  have h1 : 1 ≤ sampleLeafDoc.depth := by decide
  have hleaf : sampleLeafDoc.depth = 2 := by decide
  have hmax : maxNestingDepth = 10000 := rfl
  have hm : textVariants.MarshalJSON "hello" = .ok sampleLeafDoc := rfl
  have hlen1 := sampleChain_length 4999
  have hlen2 := sampleChain_length 5000
  refine ⟨⟨rfl, rfl, rfl⟩, ?_, rfl, ?_, ?_⟩
  · exact chainHead_marshal textVariants "hello" sampleLeafDoc hm h1 _ (sampleChain 4999)
      (by omega)
  · intro fuel
    exact chain_config_deep _ _ sampleLeafDoc h1 (sampleChain 4999) samplePosition (by omega)
  · exact chainHead_marshal_deep textVariants "hello" sampleLeafDoc hm h1 _ (sampleChain 5000)
      (by omega) (by omega)

/-- C1 fails on the code beyond the nesting limit of `encoding/json`. The
content `deepContent`, a chain of 4999 Panels over the text leaf, encodes to a
document nested 10000 deep, which parses as a typed object from which the
decode procedure rebuilds `deepContent`; `Panel.MarshalJSON` of
`NewPanel("Overview", deepContent)` positioned at `{0, 0, 12, 4}` returns a
document; but `PanelConfig.UnmarshalJSON` on its member `config`, nested 10001
deep, returns the error `exceeded max depth` and leaves the receiver without
the position and the content of the Panel. -/
theorem Panel_round_trip_fails_when_deep :
    (deepContent.marshal textVariants = .ok (chainDoc sampleLeafDoc (sampleChain 4999))
        ∧ typedObject.parse (chainDoc sampleLeafDoc (sampleChain 4999))
            = .ok (chainObject sampleLeafDoc sampleLeafObject (sampleChain 4999))
        ∧ ToViewComponent textVariants 5000
              (chainObject sampleLeafDoc sampleLeafObject (sampleChain 4999))
            = (deepContent, none))
      ∧ (deepPanel.MarshalJSON textVariants).2
          = .ok (panelDoc deepPanel.tobase (chainDoc sampleLeafDoc (sampleChain 4999))
              samplePosition)
      ∧ (panelDoc deepPanel.tobase (chainDoc sampleLeafDoc (sampleChain 4999))
            samplePosition).get "config"
          = some (configDoc (chainDoc sampleLeafDoc (sampleChain 4999)) samplePosition)
      ∧ PanelConfig.UnmarshalJSON (ToViewComponent textVariants 5000) PanelConfig.zero
            (.valid (configDoc (chainDoc sampleLeafDoc (sampleChain 4999)) samplePosition))
          = (PanelConfig.zero, some .exceededMaxDepth)
      ∧ (PanelConfig.zero : PanelConfig String).Position ≠ deepPanel.Config.Position := by
  have h1 : 1 ≤ sampleLeafDoc.depth := by decide
  have hleaf : sampleLeafDoc.depth = 2 := by decide
  have hmax : maxNestingDepth = 10000 := rfl
  have hm : textVariants.MarshalJSON "hello" = .ok sampleLeafDoc := rfl
  have hlen := sampleChain_length 4999
  have hd : (chainDoc sampleLeafDoc (sampleChain 4999)).depth ≤ maxNestingDepth := by
    rw [depth_chainDoc _ h1]; omega
  have henc : deepContent.marshal textVariants
      = .ok (chainDoc sampleLeafDoc (sampleChain 4999)) :=
    nest_marshal textVariants "hello" sampleLeafDoc hm h1 (sampleChain 4999) (by omega)
  have hdec := nest_decode textVariants "hello" sampleLeafDoc sampleLeafObject
    ⟨rfl, rfl, rfl⟩ (sampleChain 4999) 5000 (by omega) (by omega)
  rw [sampleChain_retagged] at hdec
  refine ⟨⟨henc, parse_chainDoc sampleLeafDoc sampleLeafObject rfl (sampleChain 4999), hdec⟩,
    ?_, rfl, ?_, by decide⟩
  · exact MarshalJSON_of_content textVariants deepPanel _ henc hd
  · exact chain_config_deep _ _ sampleLeafDoc h1 (sampleChain 4999) samplePosition (by omega)

/-- A chain of three Panels over the text leaf, evaluated: the decode of the
encoded chain, with four units of fuel, is the chain. -/
theorem nested_round_trip_evaluated :
    (nest sampleLeaf ((sampleBase "outer", samplePosition) :: sampleRest)).marshal textVariants
        = .ok (.obj
            [("metadata", .obj [("type", .str "Panel"), ("title", .str "outer")]),
             ("config", .obj
               [("content", .obj
                  [("metadata", .obj [("type", .str "Panel"), ("title", .str "middle")]),
                   ("config", .obj
                     [("content", .obj
                        [("metadata", .obj [("type", .str "Panel"), ("title", .str "inner")]),
                         ("config", .obj
                           [("content", sampleLeafDoc),
                            ("position", .obj [("x", .num 0), ("y", .num 0), ("w", .num 12),
                                               ("h", .num 7)])])]),
                      ("position", .obj [("x", .num (-1)), ("y", .num 0), ("w", .num 12),
                                         ("h", .num 4)])])]),
                ("position", .obj [("x", .num 0), ("y", .num 0), ("w", .num 12),
                                   ("h", .num 4)])])])
      ∧ ToViewComponent textVariants 4
          (chainObject sampleLeafDoc sampleLeafObject
            ((sampleBase "outer", samplePosition) :: sampleRest))
          = (nest sampleLeaf ((sampleBase "outer", samplePosition) :: sampleRest), none) :=
  ⟨rfl, by decide⟩

end component
